import Mathlib

/-!
Shallow embedding of `pkg/plugins/scheduler.go` from the NTHU-Scheduler-Plugin
repository: a Kubernetes scheduler plugin consisting of a gang-admission
PreFilter, a memory-headroom Score, and a linear NormalizeScore rescale.

Go `int64` arithmetic is modelled as `Int` together with an explicit
two's-complement wrap `wrap64` applied at every arithmetic step of the
source, so overflow behaves exactly as in Go. Go's truncating `int64`
division is `Int.tdiv` followed by the wrap; division by zero is a Go
run-time panic and is modelled explicitly where it can occur.
-/

namespace Scheduler

/-- Constant `Name` from the const block of `scheduler.go`. -/
def Name : String := "CustomScheduler"

/-- Constant `groupNameLabel` from the const block of `scheduler.go`. -/
def groupNameLabel : String := "podGroup"

/-- Constant `minAvailableLabel` from the const block of `scheduler.go`. -/
def minAvailableLabel : String := "minAvailable"

/-- Constant `leastMode` from the const block of `scheduler.go`. -/
def leastMode : String := "Least"

/-- Constant `mostMode` from the const block of `scheduler.go`. -/
def mostMode : String := "Most"

/-- Status codes of the host scheduler framework used by the plugin:
`framework.Success`, `framework.Error`, `framework.Unschedulable`. -/
inductive StatusCode where
  | Success
  | Error
  | Unschedulable
deriving DecidableEq, Repr

/-- A `*framework.Status` value: a code together with its message. -/
structure Status where
  code : StatusCode
  message : String
deriving DecidableEq, Repr

/-- Constant `framework.MaxNodeScore` (= 100) of the host framework. -/
def maxNodeScore : Int := 100

/-- Constant `framework.MinNodeScore` (= 0) of the host framework. -/
def minNodeScore : Int := 0

/-- Constant `math.MaxInt64`. -/
def int64Max : Int := 9223372036854775807

/-- Constant `math.MinInt64`. -/
def int64Min : Int := -9223372036854775808

/-- Two's-complement wrap of an integer into the `int64` range, performed
implicitly by every Go `int64` arithmetic operation. -/
def wrap64 (n : Int) : Int :=
  (n + 9223372036854775808) % 18446744073709551616 - 9223372036854775808

/-- Range predicate: the integer is representable as a Go `int64`. -/
abbrev InRange64 (n : Int) : Prop := int64Min ≤ n ∧ n ≤ int64Max

/-- Go `int64` division for a nonzero divisor: truncation toward zero
(`Int.tdiv`) followed by the two's-complement wrap. The wrap only matters
for `math.MinInt64 / -1`, which Go defines to overflow back to
`math.MinInt64`. Division by zero panics in Go and is modelled separately
at the call sites where it can occur. -/
def godiv64 (a b : Int) : Int := wrap64 (Int.tdiv a b)

/-- The part of a `v1.Pod` the plugin reads: its name and its label map.
The label map is modelled as an association list with unique keys. -/
structure Pod where
  name : String
  labels : List (String × String)
deriving DecidableEq, Repr

/-- Go map indexing `podLabels[k]` on the label map: the value stored at
key `k`, or the zero value `""` when the key is absent. -/
def labelGet (labels : List (String × String)) (k : String) : String :=
  match labels.lookup k with
  | some v => v
  | none => ""

/-- Decimal digit value of an ASCII digit character, or `none`. -/
def digitVal (c : Char) : Option Nat :=
  if c.isDigit then some (c.toNat - 48) else none

/-- Accumulating decimal parse of a character list; fails on any non-digit. -/
def parseDigits : List Char → Nat → Option Nat
  | [], acc => some acc
  | c :: cs, acc =>
    match digitVal c with
    | some d => parseDigits cs (acc * 10 + d)
    | none => none

/-- Body of `strconv.Atoi` after the optional sign has been split off:
at least one decimal digit, and the signed value must fit in `int64`. -/
def atoiCore (neg : Bool) (cs : List Char) : Option Int :=
  if cs = [] then none
  else
    match parseDigits cs 0 with
    | none => none
    | some n =>
      let v : Int := if neg then -(n : Int) else (n : Int)
      if int64Min ≤ v ∧ v ≤ int64Max then some v else none

/-- Go `strconv.Atoi` (on a 64-bit platform): an optional single leading
sign followed by at least one decimal digit; the value must fit in `int64`
(`ErrRange` otherwise). Returns `none` exactly when Go returns a non-nil
error. Note that a leading minus sign is accepted: Atoi parses signed
integers. -/
def atoi (s : String) : Option Int :=
  match s.data with
  | '-' :: rest => atoiCore true rest
  | '+' :: rest => atoiCore false rest
  | cs => atoiCore false cs

/-- The `PreFilter` method of the plugin (the `*framework.Status` half of
its result; the `*framework.PreFilterResult` half is always `nil` in the
source). The informer pod listing
(`SharedInformerFactory().Core().V1().Pods().Lister().List(selector)`)
is passed in as a function from the group label value (the selector is
built from exactly that value) to the matching pods or an error. -/
def PreFilter (pod : Pod) (listPods : String → Except String (List Pod)) : Status :=
  let podLabels := pod.labels
  let groupLabelValue := labelGet podLabels groupNameLabel
  let minAvailableValue := labelGet podLabels minAvailableLabel
  match atoi minAvailableValue with
  | none => ⟨StatusCode.Error, "Invalid minAvailable value"⟩
  | some minAvailable =>
    match listPods groupLabelValue with
    | Except.error e => ⟨StatusCode.Error, "Failed to list pods: " ++ e⟩
    | Except.ok pods =>
      if (pods.length : Int) < minAvailable then
        ⟨StatusCode.Unschedulable,
          "Pod cannot be scheduled because the group " ++ groupLabelValue ++
            " has only " ++ toString pods.length ++ " pods, but needs " ++
            toString minAvailable⟩
      else
        ⟨StatusCode.Success, ""⟩

/-- The part of a `framework.NodeInfo` the plugin reads:
`nodeInfo.Allocatable.Memory` and `nodeInfo.Requested.Memory`. -/
structure NodeInfo where
  allocatableMemory : Int
  requestedMemory : Int
deriving DecidableEq, Repr

/-- Outcome of `Score`: a returned `(score, nil)`, a returned
`(0, Error status)` when the node lookup fails, or a Go run-time panic
(integer division by zero). -/
inductive ScoreResult where
  | ok (score : Int)
  | err (status : Status)
  | panic
deriving DecidableEq, Repr

/-- The `Least`-mode branch `score = 100000000000 / allocatableMemory`
of `Score` (line 138 of `scheduler.go`), for nonzero headroom. -/
def leastScore (h : Int) : Int := godiv64 100000000000 h

/-- The `Most`-mode branch `score = allocatableMemory` of `Score`
(line 140 of `scheduler.go`). -/
def mostScore (h : Int) : Int := h

/-- The `Score` method of the plugin: node lookup, headroom computation
(`allocatableMemory -= nodeInfo.Requested.Memory`), and the mode switch.
The node-info lookup (`SnapshotSharedLister().NodeInfos().Get(nodeName)`)
is passed in as an `Except` value. -/
def Score (scoreMode : String) (lookup : Except String NodeInfo) : ScoreResult :=
  match lookup with
  | Except.error e => ScoreResult.err ⟨StatusCode.Error, e⟩
  | Except.ok nodeInfo =>
    let allocatableMemory :=
      wrap64 (nodeInfo.allocatableMemory - nodeInfo.requestedMemory)
    if scoreMode = leastMode then
      if allocatableMemory = 0 then ScoreResult.panic
      else ScoreResult.ok (leastScore allocatableMemory)
    else ScoreResult.ok (mostScore allocatableMemory)

/-- A `framework.NodeScore`: node name and `int64` score. -/
structure NodeScore where
  name : String
  score : Int
deriving DecidableEq, Repr

/-- The minimum-finding loop of `NormalizeScore` (lines 155-162 of
`scheduler.go`), started from `math.MaxInt64`. -/
def minScoreOf (scores : List NodeScore) : Int :=
  scores.foldl (fun m ns => if ns.score < m then ns.score else m) int64Max

/-- The maximum-finding loop of `NormalizeScore` (lines 155-162 of
`scheduler.go`), started from `math.MinInt64`. -/
def maxScoreOf (scores : List NodeScore) : Int :=
  scores.foldl (fun m ns => if ns.score > m then ns.score else m) int64Min

/-- One entry of the rescale loop (line 174 of `scheduler.go`):
`((scores[i].Score-minScore)*frameRange)/scoreRange + framework.MinNodeScore`,
with every `int64` operation wrapped as in Go. -/
def normalizeEntry (minScore maxScore s : Int) : Int :=
  let frameRange := wrap64 (maxNodeScore - minNodeScore)
  let scoreRange := wrap64 (maxScore - minScore)
  wrap64 (godiv64 (wrap64 (wrap64 (s - minScore) * frameRange)) scoreRange + minNodeScore)

/-- The `NormalizeScore` method of the plugin: returns the rescaled score
list together with the returned status. -/
def NormalizeScore (scores : List NodeScore) : List NodeScore × Status :=
  let minScore := minScoreOf scores
  let maxScore := maxScoreOf scores
  if minScore = maxScore then
    (scores.map fun ns => { ns with score := maxNodeScore },
      ⟨StatusCode.Success, ""⟩)
  else
    (scores.map fun ns => { ns with score := normalizeEntry minScore maxScore ns.score },
      ⟨StatusCode.Success, ""⟩)

/-! Helper lemmas about the wrap, the fold loops, and the rescale entry. -/

theorem wrap64_eq_self {n : Int} (h1 : int64Min ≤ n) (h2 : n ≤ int64Max) :
    wrap64 n = n := by
  simp only [int64Min, int64Max] at h1 h2
  simp only [wrap64]
  omega

theorem minFold_le_init (l : List NodeScore) (init : Int) :
    l.foldl (fun m ns => if ns.score < m then ns.score else m) init ≤ init := by
  induction l generalizing init with
  | nil => simp
  | cons x xs ih =>
    simp only [List.foldl_cons]
    refine le_trans (ih _) ?_
    split <;> omega

theorem minFold_le_mem {l : List NodeScore} {ns : NodeScore} (h : ns ∈ l) (init : Int) :
    l.foldl (fun m n2 => if n2.score < m then n2.score else m) init ≤ ns.score := by
  induction l generalizing init with
  | nil => cases h
  | cons x xs ih =>
    simp only [List.foldl_cons]
    rcases List.mem_cons.mp h with h1 | h2
    · subst h1
      refine le_trans (minFold_le_init xs _) ?_
      split <;> omega
    · exact ih h2 _

theorem maxFold_init_le (l : List NodeScore) (init : Int) :
    init ≤ l.foldl (fun m ns => if ns.score > m then ns.score else m) init := by
  induction l generalizing init with
  | nil => simp
  | cons x xs ih =>
    simp only [List.foldl_cons]
    refine le_trans ?_ (ih _)
    split <;> omega

theorem maxFold_mem_le {l : List NodeScore} {ns : NodeScore} (h : ns ∈ l) (init : Int) :
    ns.score ≤ l.foldl (fun m n2 => if n2.score > m then n2.score else m) init := by
  induction l generalizing init with
  | nil => cases h
  | cons x xs ih =>
    simp only [List.foldl_cons]
    rcases List.mem_cons.mp h with h1 | h2
    · subst h1
      refine le_trans ?_ (maxFold_init_le xs _)
      split <;> omega
    · exact ih h2 _

theorem minScoreOf_le {scores : List NodeScore} {ns : NodeScore} (h : ns ∈ scores) :
    minScoreOf scores ≤ ns.score :=
  minFold_le_mem h int64Max

theorem le_maxScoreOf {scores : List NodeScore} {ns : NodeScore} (h : ns ∈ scores) :
    ns.score ≤ maxScoreOf scores :=
  maxFold_mem_le h int64Min

theorem minFold_uniform {v : Int} {l : List NodeScore}
    (hu : ∀ ns ∈ l, ns.score = v) (hne : l ≠ []) (init : Int) (hinit : v ≤ init) :
    l.foldl (fun m ns => if ns.score < m then ns.score else m) init = v := by
  induction l generalizing init with
  | nil => cases hne rfl
  | cons x xs ih =>
    have hx : x.score = v := hu x (List.mem_cons_self x xs)
    simp only [List.foldl_cons, hx]
    by_cases hxs : xs = []
    · subst hxs
      simp only [List.foldl_nil]
      split <;> omega
    · exact ih (fun ns h => hu ns (List.mem_cons_of_mem x h)) hxs _ (by split <;> omega)

theorem maxFold_uniform {v : Int} {l : List NodeScore}
    (hu : ∀ ns ∈ l, ns.score = v) (hne : l ≠ []) (init : Int) (hinit : init ≤ v) :
    l.foldl (fun m ns => if ns.score > m then ns.score else m) init = v := by
  induction l generalizing init with
  | nil => cases hne rfl
  | cons x xs ih =>
    have hx : x.score = v := hu x (List.mem_cons_self x xs)
    simp only [List.foldl_cons, hx]
    by_cases hxs : xs = []
    · subst hxs
      simp only [List.foldl_nil]
      split <;> omega
    · exact ih (fun ns h => hu ns (List.mem_cons_of_mem x h)) hxs _ (by split <;> omega)

theorem normalizeEntry_spec {m M s : Int} (hms : m ≤ s) (hsM : s ≤ M) (hlt : m < M)
    (hof : (M - m) * 100 ≤ int64Max) :
    normalizeEntry m M s = (s - m) * 100 / (M - m) ∧
    0 ≤ (s - m) * 100 / (M - m) ∧ (s - m) * 100 / (M - m) ≤ 100 := by
  have hMax : (0 : Int) ≤ int64Max := by simp only [int64Max]; omega
  have hMin : int64Min ≤ (0 : Int) := by simp only [int64Min]; omega
  have hrange0 : (0 : Int) < M - m := by omega
  have hrne : M - m ≠ 0 := by omega
  have hs0 : (0 : Int) ≤ s - m := by omega
  have hofr : M - m ≤ int64Max := by simp only [int64Max] at hof ⊢; omega
  have hofs : (s - m) * 100 ≤ int64Max := by simp only [int64Max] at hof ⊢; omega
  have hq0 : (0 : Int) ≤ (s - m) * 100 / (M - m) :=
    Int.ediv_nonneg (by omega) (by omega)
  have hq100 : (s - m) * 100 / (M - m) ≤ 100 := by
    have h1 : (s - m) * 100 / (M - m) ≤ (M - m) * 100 / (M - m) :=
      Int.ediv_le_ediv hrange0 (by omega)
    have h2 : (M - m) * 100 / (M - m) = 100 := Int.mul_ediv_cancel_left 100 hrne
    omega
  have h100 : (100 : Int) ≤ int64Max := by decide
  refine ⟨?_, hq0, hq100⟩
  simp only [normalizeEntry, maxNodeScore, minNodeScore]
  have hframe : wrap64 (100 - 0) = 100 := by decide
  rw [hframe]
  have e1 : wrap64 (s - m) = s - m := wrap64_eq_self (by omega) (by omega)
  rw [e1]
  have e2 : wrap64 ((s - m) * 100) = (s - m) * 100 := wrap64_eq_self (by omega) (by omega)
  rw [e2]
  have e3 : wrap64 (M - m) = M - m := wrap64_eq_self (by omega) (by omega)
  rw [e3]
  simp only [godiv64]
  rw [Int.tdiv_eq_ediv (by omega) (by omega)]
  have e4 : wrap64 ((s - m) * 100 / (M - m)) = (s - m) * 100 / (M - m) :=
    wrap64_eq_self (by omega) (by omega)
  rw [e4, add_zero]
  exact wrap64_eq_self (by omega) (by omega)

theorem normalizeEntry_min {m M : Int} (hlt : m < M) (hof : (M - m) * 100 ≤ int64Max) :
    normalizeEntry m M m = minNodeScore := by
  have h := (normalizeEntry_spec (le_refl m) (le_of_lt hlt) hlt hof).1
  rw [h]
  simp only [minNodeScore, sub_self, zero_mul, Int.zero_ediv]

theorem normalizeEntry_max {m M : Int} (hlt : m < M) (hof : (M - m) * 100 ≤ int64Max) :
    normalizeEntry m M M = maxNodeScore := by
  have h := (normalizeEntry_spec (le_of_lt hlt) (le_refl M) hlt hof).1
  rw [h]
  simp only [maxNodeScore]
  exact Int.mul_ediv_cancel_left 100 (by omega)

theorem normalizeEntry_mono {m M a b : Int} (hma : m ≤ a) (hab : a ≤ b) (hbM : b ≤ M)
    (hlt : m < M) (hof : (M - m) * 100 ≤ int64Max) :
    normalizeEntry m M a ≤ normalizeEntry m M b := by
  have ha := (normalizeEntry_spec hma (le_trans hab hbM) hlt hof).1
  have hb := (normalizeEntry_spec (le_trans hma hab) hbM hlt hof).1
  rw [ha, hb]
  exact Int.ediv_le_ediv (by omega) (by omega)

theorem leastScore_wrapfree {h : Int} (hne : h ≠ 0) :
    leastScore h = Int.tdiv 100000000000 h := by
  have hb : -100000000000 ≤ Int.tdiv 100000000000 h ∧
      Int.tdiv 100000000000 h ≤ 100000000000 := by
    rcases lt_or_gt_of_ne hne with hneg | hpos
    · have e : Int.tdiv 100000000000 h = -Int.tdiv 100000000000 (-h) := by
        conv_lhs => rw [← neg_neg h]
        rw [Int.tdiv_neg]
      rw [e]
      have h1 : 0 ≤ Int.tdiv 100000000000 (-h) := Int.tdiv_nonneg (by omega) (by omega)
      have h2 : Int.tdiv 100000000000 (-h) ≤ 100000000000 := by
        rw [Int.tdiv_eq_ediv (by omega) (by omega)]
        exact Int.ediv_le_self _ (by omega)
      omega
    · have h1 : 0 ≤ Int.tdiv 100000000000 h := Int.tdiv_nonneg (by omega) (by omega)
      have h2 : Int.tdiv 100000000000 h ≤ 100000000000 := by
        rw [Int.tdiv_eq_ediv (by omega) (by omega)]
        exact Int.ediv_le_self _ (by omega)
      omega
  simp only [leastScore, godiv64]
  exact wrap64_eq_self (by simp only [int64Min]; omega) (by simp only [int64Max]; omega)

theorem leastScore_eq_ediv {h : Int} (hpos : 0 < h) :
    leastScore h = 100000000000 / h := by
  rw [leastScore_wrapfree (by omega)]
  exact Int.tdiv_eq_ediv (by omega) (by omega)

theorem leastScore_antitone {h1 h2 : Int} (hpos : 0 < h1) (hle : h1 ≤ h2) :
    leastScore h2 ≤ leastScore h1 := by
  have hp2 : 0 < h2 := lt_of_lt_of_le hpos hle
  rw [leastScore_eq_ediv hpos, leastScore_eq_ediv hp2]
  have hq0 : 0 ≤ (100000000000 : Int) / h2 := Int.ediv_nonneg (by omega) (by omega)
  rw [Int.le_ediv_iff_mul_le hpos]
  calc (100000000000 : Int) / h2 * h1
      ≤ 100000000000 / h2 * h2 := mul_le_mul_of_nonneg_left hle hq0
    _ ≤ 100000000000 := Int.ediv_mul_le _ (by omega)

/-! Claim theorems. -/

/-- C1: for every pod whose minimum-available label parses as an integer `m`
and whose group listing succeeds with `g` pods matching the pod's group
label, `PreFilter` returns an `Unschedulable` status iff `g < m`, and a
`Success` status iff `g ≥ m`. -/
theorem prefilter_admission_iff (pod : Pod)
    (listPods : String → Except String (List Pod)) (m : Int) (pods : List Pod)
    (hm : atoi (labelGet pod.labels minAvailableLabel) = some m)
    (hl : listPods (labelGet pod.labels groupNameLabel) = Except.ok pods) :
    ((PreFilter pod listPods).code = StatusCode.Unschedulable ↔ (pods.length : Int) < m) ∧
    ((PreFilter pod listPods).code = StatusCode.Success ↔ m ≤ (pods.length : Int)) := by
  simp only [PreFilter, hm, hl]
  by_cases hc : (pods.length : Int) < m <;> (simp [hc]; try omega)

/-- C1 witness: a pod declaring `minAvailable = 3` whose group listing
returns 2 pods is rejected as Unschedulable. -/
theorem prefilter_admission_iff_witness :
    (PreFilter ⟨"p1", [("podGroup", "A"), ("minAvailable", "3")]⟩
        (fun _ => Except.ok [⟨"p1", [("podGroup", "A")]⟩, ⟨"p2", [("podGroup", "A")]⟩])).code =
      StatusCode.Unschedulable ∧
    (([⟨"p1", [("podGroup", "A")]⟩, ⟨"p2", [("podGroup", "A")]⟩] : List Pod).length : Int) < 3 := by
  have h := prefilter_admission_iff
      ⟨"p1", [("podGroup", "A"), ("minAvailable", "3")]⟩
      (fun _ => Except.ok [⟨"p1", [("podGroup", "A")]⟩, ⟨"p2", [("podGroup", "A")]⟩])
      3 [⟨"p1", [("podGroup", "A")]⟩, ⟨"p2", [("podGroup", "A")]⟩]
      (by decide) rfl
  exact ⟨h.1.mpr (by decide), by decide⟩

/-- C5 counterexample: the claim says a negative integer string such as
"-5" fails with an Error status, but Go's `strconv.Atoi` parses signed
integers, so `minAvailable = "-5"` parses to `-5` and `PreFilter` returns
Success (any group size is at least 0 and hence not below -5), not Error. -/
theorem prefilter_negative_label_success :
    (PreFilter ⟨"p1", [("podGroup", "A"), ("minAvailable", "-5")]⟩
        (fun _ => Except.ok [])).code = StatusCode.Success ∧
    (PreFilter ⟨"p1", [("podGroup", "A"), ("minAvailable", "-5")]⟩
        (fun _ => Except.ok [])).code ≠ StatusCode.Error := by
  exact ⟨by decide, by decide⟩

/-- C5 (amended): for every pod whose minimum-available label is present
but does not parse as an integer at all (for example "abc"), `PreFilter`
fails with an Error status and returns neither Success nor Unschedulable.
(A negative integer string such as "-5" parses successfully and therefore
does not error; see the counterexample.) -/
theorem prefilter_unparsable_label_error (pod : Pod)
    (listPods : String → Except String (List Pod)) (s : String)
    (hmem : pod.labels.lookup minAvailableLabel = some s)
    (hbad : atoi s = none) :
    (PreFilter pod listPods).code = StatusCode.Error ∧
    (PreFilter pod listPods).code ≠ StatusCode.Success ∧
    (PreFilter pod listPods).code ≠ StatusCode.Unschedulable := by
  have hval : labelGet pod.labels minAvailableLabel = s := by
    simp only [labelGet, hmem]
  simp only [PreFilter, hval, hbad]
  exact ⟨by decide, by decide, by decide⟩

/-- C5 witness: a pod with `minAvailable = "abc"` gets an Error status. -/
theorem prefilter_unparsable_label_error_witness :
    (PreFilter ⟨"p1", [("podGroup", "A"), ("minAvailable", "abc")]⟩
        (fun _ => Except.ok [])).code = StatusCode.Error ∧
    (PreFilter ⟨"p1", [("podGroup", "A"), ("minAvailable", "abc")]⟩
        (fun _ => Except.ok [])).code ≠ StatusCode.Success := by
  have h := prefilter_unparsable_label_error
      ⟨"p1", [("podGroup", "A"), ("minAvailable", "abc")]⟩
      (fun _ => Except.ok []) "abc" (by decide) (by decide)
  exact ⟨h.1, h.2.1⟩

/-- C10: for every pod whose label map does not contain the
minimum-available key at all, the absent key reads as the empty string,
which fails integer parsing, so `PreFilter` returns an Error status and
never Success or Unschedulable. -/
theorem prefilter_missing_label_error (pod : Pod)
    (listPods : String → Except String (List Pod))
    (habs : pod.labels.lookup minAvailableLabel = none) :
    (PreFilter pod listPods).code = StatusCode.Error ∧
    (PreFilter pod listPods).code ≠ StatusCode.Success ∧
    (PreFilter pod listPods).code ≠ StatusCode.Unschedulable := by
  have hval : labelGet pod.labels minAvailableLabel = "" := by
    simp only [labelGet, habs]
  have hnone : atoi "" = none := rfl
  simp only [PreFilter, hval, hnone]
  exact ⟨by decide, by decide, by decide⟩

/-- C10 witness: a pod with no `minAvailable` label gets an Error status. -/
theorem prefilter_missing_label_error_witness :
    (PreFilter ⟨"p1", [("podGroup", "A")]⟩ (fun _ => Except.ok [])).code =
      StatusCode.Error ∧
    (PreFilter ⟨"p1", [("podGroup", "A")]⟩ (fun _ => Except.ok [])).code ≠
      StatusCode.Success := by
  have h := prefilter_missing_label_error ⟨"p1", [("podGroup", "A")]⟩
      (fun _ => Except.ok []) (by decide)
  exact ⟨h.1, h.2.1⟩

/-- C3: for every node lookup that succeeds with nonzero available headroom
`h` (allocatable memory minus requested memory), `Score` returns
`100000000000 / h` with truncating integer division in Least mode, and `h`
itself in Most mode. -/
theorem score_mode_values (nodeInfo : NodeInfo) (h : Int)
    (hh : wrap64 (nodeInfo.allocatableMemory - nodeInfo.requestedMemory) = h)
    (hne : h ≠ 0) :
    Score leastMode (Except.ok nodeInfo) = ScoreResult.ok (Int.tdiv 100000000000 h) ∧
    Score mostMode (Except.ok nodeInfo) = ScoreResult.ok h := by
  constructor
  · simp only [Score, hh]
    simp [hne, leastScore_wrapfree hne]
  · simp only [Score, hh]
    rw [if_neg (show ¬ (mostMode = leastMode) by decide)]
    rfl

/-- C3 witness: at headroom 1000000 the Least-mode score is 100000 and the
Most-mode score is 1000000. -/
theorem score_mode_values_witness :
    Score leastMode (Except.ok ⟨1000000, 0⟩) = ScoreResult.ok 100000 ∧
    Score mostMode (Except.ok ⟨1000000, 0⟩) = ScoreResult.ok 1000000 := by
  have h := score_mode_values ⟨1000000, 0⟩ 1000000 (by decide) (by decide)
  refine ⟨?_, h.2⟩
  rw [h.1]
  decide

/-- C6: the claim states that zero or negative headroom in Least mode does
not cause a division failure and is clamped to the maximum representable
raw score. The code instead performs the division unguarded: at zero
headroom Go panics with a division by zero (modelled as
`ScoreResult.panic`), and at negative headroom the division is performed
and yields a negative score, not the maximum representable one. -/
theorem score_zero_headroom_panics :
    Score leastMode (Except.ok ⟨5, 5⟩) = ScoreResult.panic ∧
    Score leastMode (Except.ok ⟨100, 105⟩) = ScoreResult.ok (-20000000000) ∧
    (-20000000000 : Int) ≠ int64Max := by
  exact ⟨by decide, by decide, by decide⟩

/-- C8: as a function of headroom, the Most-mode score is monotonically
non-decreasing and the Least-mode score is monotonically non-increasing
over positive headroom values. -/
theorem score_monotone (h1 h2 : Int) (hpos : 0 < h1) (hle : h1 ≤ h2) :
    mostScore h1 ≤ mostScore h2 ∧ leastScore h2 ≤ leastScore h1 :=
  ⟨hle, leastScore_antitone hpos hle⟩

/-- C8 witness: monotonicity at headrooms 1000000 and 2000000. -/
theorem score_monotone_witness :
    mostScore 1000000 ≤ mostScore 2000000 ∧ leastScore 2000000 ≤ leastScore 1000000 :=
  score_monotone 1000000 2000000 (by decide) (by decide)

/-- C9: NormalizeScore has no failure path: it returns a Success status for
every input score list, and on the empty list it is a no-op. -/
theorem normalize_always_success :
    (∀ scores : List NodeScore, ((NormalizeScore scores).2).code = StatusCode.Success) ∧
    (NormalizeScore []).1 = [] := by
  constructor
  · intro scores
    simp only [NormalizeScore]
    split <;> rfl
  · decide

/-- C4: for every non-empty score list in which all raw scores are equal
(including the single-node case), NormalizeScore assigns every entry
exactly the maximum output value MaxNodeScore. -/
theorem normalize_uniform_max (scores : List NodeScore) (v : Int)
    (hne : scores ≠ []) (hv : InRange64 v) (hu : ∀ ns ∈ scores, ns.score = v) :
    (NormalizeScore scores).1 = scores.map (fun ns => { ns with score := maxNodeScore }) ∧
    ∀ ns ∈ (NormalizeScore scores).1, ns.score = maxNodeScore := by
  have hmin : minScoreOf scores = v := minFold_uniform hu hne int64Max hv.2
  have hmax : maxScoreOf scores = v := maxFold_uniform hu hne int64Min hv.1
  have heq : minScoreOf scores = maxScoreOf scores := by rw [hmin, hmax]
  have hres : NormalizeScore scores =
      (scores.map fun ns => { ns with score := maxNodeScore },
        ⟨StatusCode.Success, ""⟩) := by
    simp only [NormalizeScore]
    rw [if_pos heq]
  rw [hres]
  refine ⟨rfl, ?_⟩
  intro ns hns
  rcases List.mem_map.mp hns with ⟨x, hx, rfl⟩
  rfl

/-- C4 witness: the uniform list with raw scores 5, 5, 5 normalizes to
MaxNodeScore everywhere. -/
theorem normalize_uniform_max_witness :
    (NormalizeScore [⟨"n1", 5⟩, ⟨"n2", 5⟩, ⟨"n3", 5⟩]).1 =
      [⟨"n1", 100⟩, ⟨"n2", 100⟩, ⟨"n3", 100⟩] := by
  have h := normalize_uniform_max [⟨"n1", 5⟩, ⟨"n2", 5⟩, ⟨"n3", 5⟩] 5
      (by decide) (by decide) (by decide)
  rw [h.1]
  decide

/-- C2 counterexample: the claim quantifies over every score list with
distinct minimum and maximum, but for the list with raw scores 0 and
2 to the power 57 the product in the rescale formula overflows int64, the
wrapped numerator is negative, and the entry holding the maximum raw score
normalizes to -28: outside the range from MinNodeScore to MaxNodeScore and
not equal to MaxNodeScore. -/
theorem normalize_overflow_counterexample :
    (NormalizeScore [⟨"n1", 0⟩, ⟨"n2", 144115188075855872⟩]).1 =
      [⟨"n1", 0⟩, ⟨"n2", -28⟩] ∧
    ¬ (∀ ns ∈ (NormalizeScore [⟨"n1", 0⟩, ⟨"n2", 144115188075855872⟩]).1,
        minNodeScore ≤ ns.score ∧ ns.score ≤ maxNodeScore) := by
  exact ⟨by decide, by decide⟩

/-- C2 (amended): for every non-empty score list whose minimum and maximum
raw scores differ and whose score spread times the output range does not
overflow int64, after NormalizeScore every output score lies within
MinNodeScore and MaxNodeScore, every entry holding the minimum raw score
maps to exactly MinNodeScore, and every entry holding the maximum raw
score maps to exactly MaxNodeScore. -/
theorem normalize_range_and_endpoints (scores : List NodeScore)
    (_hne : scores ≠ [])
    (hmm : minScoreOf scores ≠ maxScoreOf scores)
    (hof : (maxScoreOf scores - minScoreOf scores) * (maxNodeScore - minNodeScore) ≤ int64Max) :
    (NormalizeScore scores).1 =
      scores.map (fun ns =>
        { ns with score := normalizeEntry (minScoreOf scores) (maxScoreOf scores) ns.score }) ∧
    ∀ ns ∈ scores,
      (minNodeScore ≤ normalizeEntry (minScoreOf scores) (maxScoreOf scores) ns.score ∧
        normalizeEntry (minScoreOf scores) (maxScoreOf scores) ns.score ≤ maxNodeScore) ∧
      (ns.score = minScoreOf scores →
        normalizeEntry (minScoreOf scores) (maxScoreOf scores) ns.score = minNodeScore) ∧
      (ns.score = maxScoreOf scores →
        normalizeEntry (minScoreOf scores) (maxScoreOf scores) ns.score = maxNodeScore) := by
  have hofn : (maxScoreOf scores - minScoreOf scores) * 100 ≤ int64Max := by
    simpa [maxNodeScore, minNodeScore] using hof
  constructor
  · simp only [NormalizeScore]
    rw [if_neg hmm]
  · intro ns hns
    have h1 := minScoreOf_le hns
    have h2 := le_maxScoreOf hns
    have hlt : minScoreOf scores < maxScoreOf scores := by omega
    have hspec := normalizeEntry_spec h1 h2 hlt hofn
    refine ⟨⟨?_, ?_⟩, ?_, ?_⟩
    · rw [hspec.1]
      simpa [minNodeScore] using hspec.2.1
    · rw [hspec.1]
      simpa [maxNodeScore] using hspec.2.2
    · intro hmin
      rw [hmin]
      exact normalizeEntry_min hlt hofn
    · intro hmax
      rw [hmax]
      exact normalizeEntry_max hlt hofn

/-- C2 witness: on the list with raw scores 10, 20, 30 the minimum maps to
MinNodeScore and the maximum maps to MaxNodeScore. -/
theorem normalize_range_and_endpoints_witness :
    (NormalizeScore [⟨"n1", 10⟩, ⟨"n2", 20⟩, ⟨"n3", 30⟩]).1 =
      ([⟨"n1", 10⟩, ⟨"n2", 20⟩, ⟨"n3", 30⟩] : List NodeScore).map (fun ns =>
        { ns with score := (normalizeEntry (minScoreOf [⟨"n1", 10⟩, ⟨"n2", 20⟩, ⟨"n3", 30⟩])
            (maxScoreOf [⟨"n1", 10⟩, ⟨"n2", 20⟩, ⟨"n3", 30⟩]) ns.score) }) ∧
    normalizeEntry (minScoreOf [⟨"n1", 10⟩, ⟨"n2", 20⟩, ⟨"n3", 30⟩])
        (maxScoreOf [⟨"n1", 10⟩, ⟨"n2", 20⟩, ⟨"n3", 30⟩]) 30 = maxNodeScore ∧
    normalizeEntry (minScoreOf [⟨"n1", 10⟩, ⟨"n2", 20⟩, ⟨"n3", 30⟩])
        (maxScoreOf [⟨"n1", 10⟩, ⟨"n2", 20⟩, ⟨"n3", 30⟩]) 10 = minNodeScore := by
  have h := normalize_range_and_endpoints [⟨"n1", 10⟩, ⟨"n2", 20⟩, ⟨"n3", 30⟩]
      (by decide) (by decide) (by decide)
  exact ⟨h.1, (h.2 ⟨"n3", 30⟩ (by decide)).2.2 (by decide),
    (h.2 ⟨"n1", 10⟩ (by decide)).2.1 (by decide)⟩

/-- C7 counterexample: order preservation fails once the rescale product
overflows int64. On the list with raw scores 0, 2 to the power 56, and
2 to the power 60, the middle entry normalizes to 6 while the larger last
entry normalizes to 4. -/
theorem normalize_order_counterexample :
    (NormalizeScore [⟨"n1", 0⟩, ⟨"n2", 72057594037927936⟩, ⟨"n3", 1152921504606846976⟩]).1 =
      [⟨"n1", 0⟩, ⟨"n2", 6⟩, ⟨"n3", 4⟩] ∧
    (72057594037927936 : Int) ≤ 1152921504606846976 ∧
    ¬ (normalizeEntry
        (minScoreOf [⟨"n1", 0⟩, ⟨"n2", 72057594037927936⟩, ⟨"n3", 1152921504606846976⟩])
        (maxScoreOf [⟨"n1", 0⟩, ⟨"n2", 72057594037927936⟩, ⟨"n3", 1152921504606846976⟩])
        72057594037927936 ≤
      normalizeEntry
        (minScoreOf [⟨"n1", 0⟩, ⟨"n2", 72057594037927936⟩, ⟨"n3", 1152921504606846976⟩])
        (maxScoreOf [⟨"n1", 0⟩, ⟨"n2", 72057594037927936⟩, ⟨"n3", 1152921504606846976⟩])
        1152921504606846976) := by
  exact ⟨by decide, by decide, by decide⟩

/-- C7 (amended): NormalizeScore is order-preserving for every score list
with distinct minimum and maximum whose score spread times the output
range does not overflow int64: any two entries whose raw scores satisfy
`a ≤ b` normalize to values `a' ≤ b'`; on the concrete list 10, 20, 30
with output range 0 to 100 the result is exactly 0, 50, 100. -/
theorem normalize_order_preserving (scores : List NodeScore) (a b : NodeScore)
    (ha : a ∈ scores) (hb : b ∈ scores)
    (hmm : minScoreOf scores ≠ maxScoreOf scores)
    (hof : (maxScoreOf scores - minScoreOf scores) * (maxNodeScore - minNodeScore) ≤ int64Max)
    (hab : a.score ≤ b.score) :
    (NormalizeScore scores).1 =
      scores.map (fun ns =>
        { ns with score := normalizeEntry (minScoreOf scores) (maxScoreOf scores) ns.score }) ∧
    normalizeEntry (minScoreOf scores) (maxScoreOf scores) a.score ≤
      normalizeEntry (minScoreOf scores) (maxScoreOf scores) b.score ∧
    (NormalizeScore [⟨"n1", 10⟩, ⟨"n2", 20⟩, ⟨"n3", 30⟩]).1 =
      [⟨"n1", 0⟩, ⟨"n2", 50⟩, ⟨"n3", 100⟩] := by
  have hofn : (maxScoreOf scores - minScoreOf scores) * 100 ≤ int64Max := by
    simpa [maxNodeScore, minNodeScore] using hof
  have h1 := minScoreOf_le ha
  have h2 := le_maxScoreOf hb
  have h3 := le_maxScoreOf ha
  have hlt : minScoreOf scores < maxScoreOf scores := by omega
  refine ⟨?_, normalizeEntry_mono h1 hab h2 hlt hofn, by decide⟩
  simp only [NormalizeScore]
  rw [if_neg hmm]

/-- C7 witness: on the list with raw scores 10, 20, 30 the entries with
raw scores 20 and 30 normalize in order. -/
theorem normalize_order_preserving_witness :
    normalizeEntry (minScoreOf [⟨"n1", 10⟩, ⟨"n2", 20⟩, ⟨"n3", 30⟩])
        (maxScoreOf [⟨"n1", 10⟩, ⟨"n2", 20⟩, ⟨"n3", 30⟩]) 20 ≤
      normalizeEntry (minScoreOf [⟨"n1", 10⟩, ⟨"n2", 20⟩, ⟨"n3", 30⟩])
        (maxScoreOf [⟨"n1", 10⟩, ⟨"n2", 20⟩, ⟨"n3", 30⟩]) 30 ∧
    (NormalizeScore [⟨"n1", 10⟩, ⟨"n2", 20⟩, ⟨"n3", 30⟩]).1 =
      [⟨"n1", 0⟩, ⟨"n2", 50⟩, ⟨"n3", 100⟩] := by
  have h := normalize_order_preserving [⟨"n1", 10⟩, ⟨"n2", 20⟩, ⟨"n3", 30⟩]
      ⟨"n2", 20⟩ ⟨"n3", 30⟩ (by decide) (by decide) (by decide) (by decide) (by decide)
  exact ⟨h.2.1, h.2.2⟩

end Scheduler
